import Mathlib

/-!
# Verification of a predictive LL(1) syntax checker (calculator language)

Shallow embedding of a three-layer pipeline implemented in Rust
(`src/parser.rs`): an input buffer (`Input`), a lexical scanner
(`Scanner`) and a recursive-descent parser (`Parser`).

Modelling conventions:
* `stdin` is modelled as a pure list of physical lines (each a
  `List Char`, possibly ending in a newline), so `Input::getc` becomes a
  total function on an explicit state.
* Rust panics (`LexicalError` / `SyntaxError` diagnostics) are modelled
  as `Except` errors carrying exactly the data the panic message prints.
* The scanner's and parser's unbounded loops/recursions are given a
  `Nat` fuel argument; fuel exhaustion yields `none`.  All theorems are
  stated for every fuel value, or evaluated at a concrete sufficient one.
* `println!` trace output does not influence control flow; the format of
  the `matched` trace line produced by `Parser::eat` is modelled
  separately by `matchedLine`.
* Rust's Unicode character classes (`char::is_whitespace`,
  `is_alphabetic`, `is_alphanumeric`, `is_ascii_digit`) are embedded by
  their ASCII fragments, expressed on codepoints.
-/

set_option maxRecDepth 100000

namespace CalcParse

/-- `^D` sentinel returned by `Input::getc` at end of file (`input::EOF`). -/
def EOF : Char := '\x04'

/-- Line-feed character (`input::NL`). -/
def NL : Char := '\x0a'

/-- `input::SourceChar`: a character tagged with 1-based line and 0-based column. -/
structure SourceChar where
  ch : Char
  line : Nat
  col : Nat
deriving DecidableEq, Repr

/-- `input::Input`: one buffered physical line plus a cursor, and (model
only) the list of physical lines not yet fetched from stdin. -/
structure Input where
  buf : List Char
  line : Nat
  next_col : Nat
  stdin : List (List Char)
deriving DecidableEq, Repr

/-- The `read_line` post-processing in `Input::getc`: a fetched line that
does not end in a newline (the last line of input) gets one appended. -/
def fixNL (l : List Char) : List Char :=
  if l.getLast? = some NL then l else l ++ [NL]

/-- The refill step of `Input::getc`: clear the buffer and fetch one line;
if stdin is exhausted the buffer becomes the single `EOF` sentinel.
Either way the line counter is incremented and the cursor reset. -/
def Input.refill (s : Input) : Input :=
  match s.stdin with
  | [] => { buf := [EOF], line := s.line + 1, next_col := 0, stdin := [] }
  | l :: rest => { buf := fixNL l, line := s.line + 1, next_col := 0, stdin := rest }

/-- Returning a character found at the cursor: the cursor advances past
every character except the `EOF` sentinel (`if ch != EOF { ... }`). -/
def Input.emit (s : Input) (ch : Char) : SourceChar × Input :=
  if ch = EOF then ({ ch := ch, line := s.line, col := s.next_col }, s)
  else ({ ch := ch, line := s.line, col := s.next_col }, { s with next_col := s.next_col + 1 })

/-- Second iteration of the `Input::getc` loop, entered after a refill.
The fallback branch is unreachable because a refilled buffer is never
empty; it conservatively returns the sentinel. -/
def Input.getc_refill (s2 : Input) : SourceChar × Input :=
  match (s2.buf.drop s2.next_col).head? with
  | some ch => s2.emit ch
  | none => ({ ch := EOF, line := s2.line, col := s2.next_col }, s2)

/-- `Input::getc`: return the character at the cursor, refilling the
buffer from stdin when the current line is exhausted.  The Rust `loop`
runs at most twice (a refilled buffer is never empty), so it is unrolled
here. -/
def Input.getc (s : Input) : SourceChar × Input :=
  match (s.buf.drop s.next_col).head? with
  | some ch => s.emit ch
  | none => Input.getc_refill s.refill

/-- Iterated `getc` (n further calls after the first). -/
def getcN (s : Input) : Nat → SourceChar × Input
  | 0 => Input.getc s
  | n + 1 => getcN (Input.getc s).2 n

/-! ## Character streams delivered by `Input`

`rendered` is the sequence of characters an `Input` state can still
produce: the unread part of the buffer followed by the not-yet-fetched
lines (each with the missing-newline fix applied).  `stream` cuts it at
the first `EOF` sentinel, after which `getc` repeats `EOF` forever. -/

def rendered (s : Input) : List Char :=
  s.buf.drop s.next_col ++ (s.stdin.map fixNL).flatten

def stream (s : Input) : List Char :=
  (rendered s).takeWhile (fun c => c != EOF)

/-! ## Lexical scanner -/

/-- `scanner::TokTp`: the closed token-category enumeration.  `Begin` is
the dummy priming value; `End` is the permanent end-of-stream category. -/
inductive TokTp where
  | Begin | Read | Write | Ident | ILit | RLit | Gets | Greater | Lesser
  | EqualTo | NEqualTo | GreaterEq | LesserEq
  | If | Fi | Do | Od | Check | Int | Real | Trunc | Float
  | Plus | Minus | Times | DivBy | LParen | RParen | End
deriving DecidableEq, Repr

/-- `scanner::Token`.  `text` is kept as a character list. -/
structure Token where
  tp : TokTp
  text : List Char
  line : Nat
  col : Nat
deriving DecidableEq, Repr

/-- `scanner::Scanner`: the input plus one already-peeked character. -/
structure Scanner where
  input : Input
  next_char : SourceChar
deriving DecidableEq, Repr

/-- ASCII fragment of Rust `char::is_whitespace` (Unicode `White_Space`),
on codepoints: TAB, LF, VT, FF, CR, SPACE. -/
def rsWhitespace (c : Char) : Bool :=
  c.toNat = 32 || c.toNat = 9 || c.toNat = 10 || c.toNat = 11 || c.toNat = 12 || c.toNat = 13

/-- ASCII fragment of Rust `char::is_alphabetic`. -/
def rsAlphabetic (c : Char) : Bool :=
  (65 ≤ c.toNat && c.toNat ≤ 90) || (97 ≤ c.toNat && c.toNat ≤ 122)

/-- Rust `char::is_ascii_digit`. -/
def rsAsciiDigit (c : Char) : Bool :=
  48 ≤ c.toNat && c.toNat ≤ 57

/-- ASCII fragment of Rust `char::is_alphanumeric`. -/
def rsAlphanumeric (c : Char) : Bool :=
  rsAlphabetic c || rsAsciiDigit c

/-- The lexical-error panics in `Scanner::scan`, carrying the characters
the panic message prints. -/
inductive LexErr where
  /-- `extected '=' after <after>, got '<got>' (0x..)`: a compound
  operator's mandatory `=` is absent; `got` is the character found. -/
  | expectedEq (after : Char) (got : Char)
  /-- `unexpected character '<got>' (0x..)`.  Note: the source prints
  `self.next_char.ch` *after* it has already been advanced past the
  character that failed to match, so `got` is the character following
  the offending one. -/
  | unexpected (got : Char)
deriving DecidableEq, Repr

/-- Advance the scanner's lookahead by one `getc`. -/
def advanceSc (sc : Scanner) : Scanner :=
  { input := (Input.getc sc.input).2, next_char := (Input.getc sc.input).1 }

/-- The leading `while self.next_char.ch.is_whitespace()` loop of
`Scanner::scan` (fuelled). -/
def skipWs : Nat → Scanner → Option Scanner
  | 0, _ => none
  | fuel + 1, sc =>
    if rsWhitespace sc.next_char.ch then skipWs fuel (advanceSc sc)
    else some sc

/-- The maximal-munch loops of `Scanner::scan`: push the current
lookahead, fetch the next, continue while `keep` holds of the new
lookahead (fuelled).  Faithful to the Rust `loop { text.push(..);
next = getc(); if !cond { break } }` shape. -/
def munchWhile (keep : Char → Bool) : Nat → Scanner → List Char → Option (List Char × Scanner)
  | 0, _, _ => none
  | fuel + 1, sc, acc =>
    if keep (advanceSc sc).next_char.ch then
      munchWhile keep fuel (advanceSc sc) (acc ++ [sc.next_char.ch])
    else some (acc ++ [sc.next_char.ch], advanceSc sc)

/-- The keyword table of `Scanner::scan`: an accumulated alphabetic run
is looked up among the eleven keywords, otherwise it is an identifier. -/
def keywordTp (text : List Char) : TokTp :=
  if text = "read".toList then .Read
  else if text = "write".toList then .Write
  else if text = "if".toList then .If
  else if text = "fi".toList then .Fi
  else if text = "do".toList then .Do
  else if text = "od".toList then .Od
  else if text = "int".toList then .Int
  else if text = "real".toList then .Real
  else if text = "trunc".toList then .Trunc
  else if text = "float".toList then .Float
  else if text = "check".toList then .Check
  else .Ident

/-- The single-character / compound-operator tail of `Scanner::scan`.
`c` is the character already consumed (and pushed into the text); `sc1`
already holds the following lookahead. -/
def opTok (c : Char) (line col : Nat) (sc1 : Scanner) : Option (Except LexErr (Token × Scanner)) :=
  match c with
  | ':' =>
    if sc1.next_char.ch ≠ '=' then some (.error (.expectedEq ':' sc1.next_char.ch))
    else some (.ok ({ tp := .Gets, text := [c, '='], line := line, col := col }, advanceSc sc1))
  | '=' =>
    if sc1.next_char.ch ≠ '=' then some (.error (.expectedEq '=' sc1.next_char.ch))
    else some (.ok ({ tp := .EqualTo, text := [c, '='], line := line, col := col }, advanceSc sc1))
  | '!' =>
    if sc1.next_char.ch ≠ '=' then some (.error (.expectedEq '!' sc1.next_char.ch))
    else some (.ok ({ tp := .NEqualTo, text := [c, '='], line := line, col := col }, advanceSc sc1))
  | '<' =>
    if sc1.next_char.ch = '=' then
      some (.ok ({ tp := .LesserEq, text := [c, '='], line := line, col := col }, advanceSc sc1))
    else some (.ok ({ tp := .Lesser, text := [c], line := line, col := col }, sc1))
  | '>' =>
    if sc1.next_char.ch = '=' then
      some (.ok ({ tp := .GreaterEq, text := [c, '='], line := line, col := col }, advanceSc sc1))
    else some (.ok ({ tp := .Greater, text := [c], line := line, col := col }, sc1))
  | '+' => some (.ok ({ tp := .Plus, text := [c], line := line, col := col }, sc1))
  | '-' => some (.ok ({ tp := .Minus, text := [c], line := line, col := col }, sc1))
  | '*' => some (.ok ({ tp := .Times, text := [c], line := line, col := col }, sc1))
  | '/' => some (.ok ({ tp := .DivBy, text := [c], line := line, col := col }, sc1))
  | '(' => some (.ok ({ tp := .LParen, text := [c], line := line, col := col }, sc1))
  | ')' => some (.ok ({ tp := .RParen, text := [c], line := line, col := col }, sc1))
  | _ => some (.error (.unexpected sc1.next_char.ch))

/-- The body of `Scanner::scan` after the whitespace skip: the token's
line/column are those of the first non-whitespace lookahead; then the
end-of-stream, alphabetic, digit, and operator cases in source order.
(The source's empty `if self.next_char.ch == '.' { }` block is a no-op
and is omitted.) -/
def scanAt (fuel : Nat) (sc : Scanner) : Option (Except LexErr (Token × Scanner)) :=
  if sc.next_char.ch = EOF then
    some (.ok ({ tp := .End, text := [],
                 line := sc.next_char.line, col := sc.next_char.col }, sc))
  else if rsAlphabetic sc.next_char.ch then
    match munchWhile (fun c => c = '_' || rsAlphanumeric c) fuel sc [] with
    | none => none
    | some (text, sc') =>
      some (.ok ({ tp := keywordTp text, text := text,
                   line := sc.next_char.line, col := sc.next_char.col }, sc'))
  else if rsAsciiDigit sc.next_char.ch then
    match munchWhile (fun c => rsAsciiDigit c || c = '.') fuel sc [] with
    | none => none
    | some (text, sc') =>
      some (.ok ({ tp := .ILit, text := text,
                   line := sc.next_char.line, col := sc.next_char.col }, sc'))
  else
    opTok sc.next_char.ch sc.next_char.line sc.next_char.col (advanceSc sc)

/-- `Scanner::scan`: skip whitespace, then classify. -/
def scan (fuel : Nat) (sc : Scanner) : Option (Except LexErr (Token × Scanner)) :=
  match skipWs fuel sc with
  | none => none
  | some sc1 => scanAt fuel sc1

/-- The character stream still to be delivered to the scanner: the peeked
lookahead (unless it is already the sentinel) followed by the input's
stream. -/
def charStream (sc : Scanner) : List Char :=
  if sc.next_char.ch = EOF then [] else sc.next_char.ch :: stream sc.input

/-- Initial `Input` state (`Input::new`) over the given stdin lines. -/
def initInput (lines : List (List Char)) : Input :=
  { buf := [], line := 0, next_col := 0, stdin := lines }

/-- Initial `Scanner` state (`Scanner::new`): the lookahead is primed
with a dummy space at line 0, column 0. -/
def initScanner (lines : List (List Char)) : Scanner :=
  { input := initInput lines, next_char := { ch := ' ', line := 0, col := 0 } }

/-- Run the scanner to completion: the list of tokens produced before the
first `End` token, and that `End` token itself (which the scanner then
returns forever). -/
def tokenize : Nat → Scanner → Option (Except LexErr (List Token × Token))
  | 0, _ => none
  | fuel + 1, sc =>
    match scan (fuel + 1) sc with
    | none => none
    | some (.error e) => some (.error e)
    | some (.ok (t, sc')) =>
      if t.tp = .End then some (.ok ([], t))
      else
        match tokenize fuel sc' with
        | none => none
        | some (.error e) => some (.error e)
        | some (.ok (ts, te)) => some (.ok (t :: ts, te))

/-! ## Predictive parser

The parser peeks one token ahead.  Its token source is modelled as the
finite list of tokens the scanner produces before end of stream plus the
`End` token, which the scanner then returns forever (`endTok`). -/

/-- The parser's view of the scanner: remaining proper tokens, plus the
perpetual end-of-stream token. -/
structure TokStream where
  toks : List Token
  endTok : Token
deriving DecidableEq, Repr

/-- The current lookahead token (`self.next_tok`). -/
def la (st : TokStream) : Token := st.toks.headD st.endTok

/-- Consume the lookahead (the `self.next_tok = self.scanner.scan()`
step); at end of stream the `End` token repeats. -/
def adv (st : TokStream) : TokStream := { st with toks := st.toks.tail }

/-- Result of a (fuelled) parser operation: `none` is fuel exhaustion,
`.error t` is the `syntax error on line {t.line}` panic with `t` the
offending lookahead token. -/
abbrev PRes := Option (Except Token TokStream)

/-- Sequencing of parser operations (Rust's `;` between calls: a panic
aborts everything downstream). -/
def pbind (r : PRes) (f : TokStream → PRes) : PRes :=
  match r with
  | none => none
  | some (.error e) => some (.error e)
  | some (.ok st) => f st

/-- A non-fuelled step used as a `PRes`. -/
def plift (r : Except Token TokStream) : PRes := some r

namespace Parser

/-- `Parser::eat`: match the lookahead against the expected category and
advance, or panic with the lookahead token's line. -/
def eat (expected : TokTp) (st : TokStream) : Except Token TokStream :=
  if (la st).tp = expected then .ok (adv st) else .error (la st)

/-- Debug name of a token category, as `{:?}` prints it. -/
def tpName : TokTp → String
  | .Begin => "Begin" | .Read => "Read" | .Write => "Write" | .Ident => "Ident"
  | .ILit => "ILit" | .RLit => "RLit" | .Gets => "Gets" | .Greater => "Greater"
  | .Lesser => "Lesser" | .EqualTo => "EqualTo" | .NEqualTo => "NEqualTo"
  | .GreaterEq => "GreaterEq" | .LesserEq => "LesserEq" | .If => "If" | .Fi => "Fi"
  | .Do => "Do" | .Od => "Od" | .Check => "Check" | .Int => "Int" | .Real => "Real"
  | .Trunc => "Trunc" | .Float => "Float" | .Plus => "Plus" | .Minus => "Minus"
  | .Times => "Times" | .DivBy => "DivBy" | .LParen => "LParen" | .RParen => "RParen"
  | .End => "End"

/-- The trace line printed by a successful `Parser::eat`: `matched <tp>`,
with `: <text>` appended exactly for the identifier / integer-literal /
real-literal categories. -/
def matchedLine (expected : TokTp) (t : Token) : String :=
  "matched " ++ tpName expected ++
    (if expected = .Ident || expected = .ILit || expected = .RLit then
      ": " ++ String.mk t.text
    else "")

/-- `Parser::types` (the `type` nonterminal).  The epsilon production is
selected only on `End`. -/
def types (st : TokStream) : PRes :=
  match (la st).tp with
  | .Int => plift (eat .Int st)
  | .Real => plift (eat .Real st)
  | .End => some (.ok st)
  | _ => some (.error (la st))

/-- `Parser::comp_op`. -/
def comp_op (st : TokStream) : PRes :=
  match (la st).tp with
  | .Greater => plift (eat .Greater st)
  | .Lesser => plift (eat .Lesser st)
  | .EqualTo => plift (eat .EqualTo st)
  | .NEqualTo => plift (eat .NEqualTo st)
  | .GreaterEq => plift (eat .GreaterEq st)
  | .LesserEq => plift (eat .LesserEq st)
  | _ => some (.error (la st))

/-- `Parser::add_op`. -/
def add_op (st : TokStream) : PRes :=
  match (la st).tp with
  | .Plus => plift (eat .Plus st)
  | .Minus => plift (eat .Minus st)
  | _ => some (.error (la st))

/-- `Parser::mul_op`. -/
def mul_op (st : TokStream) : PRes :=
  match (la st).tp with
  | .Times => plift (eat .Times st)
  | .DivBy => plift (eat .DivBy st)
  | _ => some (.error (la st))

mutual

/-- `Parser::program`: `program --> stmt_list $$`. -/
def program : Nat → TokStream → PRes
  | 0, _ => none
  | fuel + 1, st =>
    match (la st).tp with
    | .Ident | .Read | .Write | .End | .Int | .Real | .If | .Do | .Check =>
      pbind (stmt_list fuel st) (fun st1 => plift (eat .End st1))
    | _ => some (.error (la st))

/-- `Parser::stmt_list`: epsilon is selected only on `End`. -/
def stmt_list : Nat → TokStream → PRes
  | 0, _ => none
  | fuel + 1, st =>
    match (la st).tp with
    | .Ident | .Read | .Write | .Int | .Real | .If | .Do | .Check =>
      pbind (stmt fuel st) (fun st1 => stmt_list fuel st1)
    | .End => some (.ok st)
    | _ => some (.error (la st))

/-- `Parser::stmt`. -/
def stmt : Nat → TokStream → PRes
  | 0, _ => none
  | fuel + 1, st =>
    match (la st).tp with
    | .Ident =>
      pbind (plift (eat .Ident st)) fun st1 =>
      pbind (plift (eat .Gets st1)) fun st2 => expr fuel st2
    | .Read =>
      pbind (plift (eat .Read st)) fun st1 =>
      pbind (types st1) fun st2 => plift (eat .Ident st2)
    | .Write =>
      pbind (plift (eat .Write st)) fun st1 => expr fuel st1
    | .If =>
      pbind (plift (eat .If st)) fun st1 =>
      pbind (comp fuel st1) fun st2 =>
      pbind (stmt_list fuel st2) fun st3 => plift (eat .Fi st3)
    | .Do =>
      pbind (plift (eat .Do st)) fun st1 =>
      pbind (stmt_list fuel st1) fun st2 => plift (eat .Od st2)
    | .Check =>
      pbind (plift (eat .Check st)) fun st1 => comp fuel st1
    | .Int =>
      pbind (plift (eat .Int st)) fun st1 =>
      pbind (plift (eat .Ident st1)) fun st2 =>
      pbind (plift (eat .Gets st2)) fun st3 => expr fuel st3
    | .Real =>
      pbind (plift (eat .Real st)) fun st1 =>
      pbind (plift (eat .Ident st1)) fun st2 =>
      pbind (plift (eat .Gets st2)) fun st3 => expr fuel st3
    | _ => some (.error (la st))

/-- `Parser::comp`: `comp --> expr comp_op expr`. -/
def comp : Nat → TokStream → PRes
  | 0, _ => none
  | fuel + 1, st =>
    match (la st).tp with
    | .Ident | .ILit | .RLit | .LParen =>
      pbind (expr fuel st) fun st1 =>
      pbind (comp_op st1) fun st2 => expr fuel st2
    | _ => some (.error (la st))

/-- `Parser::expr`: `expr --> term term_tail`. -/
def expr : Nat → TokStream → PRes
  | 0, _ => none
  | fuel + 1, st =>
    match (la st).tp with
    | .Ident | .ILit | .RLit | .LParen =>
      pbind (term fuel st) fun st1 => term_tail fuel st1
    | _ => some (.error (la st))

/-- `Parser::term`: `term --> factor factor_tail`. -/
def term : Nat → TokStream → PRes
  | 0, _ => none
  | fuel + 1, st =>
    match (la st).tp with
    | .Ident | .ILit | .RLit | .LParen =>
      pbind (factor fuel st) fun st1 => factor_tail fuel st1
    | _ => some (.error (la st))

/-- `Parser::term_tail`: epsilon on `RParen | Ident | Read | Write | End`. -/
def term_tail : Nat → TokStream → PRes
  | 0, _ => none
  | fuel + 1, st =>
    match (la st).tp with
    | .Plus | .Minus =>
      pbind (add_op st) fun st1 =>
      pbind (term fuel st1) fun st2 => term_tail fuel st2
    | .RParen | .Ident | .Read | .Write | .End => some (.ok st)
    | _ => some (.error (la st))

/-- `Parser::factor`. -/
def factor : Nat → TokStream → PRes
  | 0, _ => none
  | fuel + 1, st =>
    match (la st).tp with
    | .Ident => plift (eat .Ident st)
    | .ILit => plift (eat .ILit st)
    | .RLit => plift (eat .RLit st)
    | .LParen =>
      pbind (plift (eat .LParen st)) fun st1 =>
      pbind (expr fuel st1) fun st2 => plift (eat .RParen st2)
    | _ => some (.error (la st))

/-- `Parser::factor_tail`: epsilon on
`Plus | Minus | RParen | Ident | Read | Write | End`. -/
def factor_tail : Nat → TokStream → PRes
  | 0, _ => none
  | fuel + 1, st =>
    match (la st).tp with
    | .Times | .DivBy =>
      pbind (mul_op st) fun st1 =>
      pbind (factor fuel st1) fun st2 => factor_tail fuel st2
    | .Plus | .Minus | .RParen | .Ident | .Read | .Write | .End => some (.ok st)
    | _ => some (.error (la st))

end

end Parser

/-- Outcome of a whole run of `main` (modulo trace output). -/
inductive RunErr where
  | lexE (e : LexErr)
  /-- `syntax error on line <n>`. -/
  | synE (line : Nat)
deriving DecidableEq, Repr

/-- A whole run: scan everything, then parse the token stream.  (In the
source the parser pulls tokens on demand; since scanning is pure and
every scanned token becomes the parser's lookahead in order, running the
scanner first is behaviour-preserving whenever scanning succeeds, which
holds for every concrete input evaluated below.) -/
def runLines (lines : List (List Char)) (fuel : Nat) : Option (Except RunErr Unit) :=
  match tokenize fuel (initScanner lines) with
  | none => none
  | some (.error e) => some (.error (.lexE e))
  | some (.ok (toks, te)) =>
    match Parser.program fuel { toks := toks, endTok := te } with
    | none => none
    | some (.error t) => some (.error (.synE t.line))
    | some (.ok _) => some (.ok ())

/-! ## The documented grammar, and FIRST / FOLLOW sets

The grammar below is the one documented for the program (its productions
appear as the parser's cases and trace lines).  `followSet` computes each
nonterminal's FOLLOW set by the textbook fixpoint: for every production
`A --> α B β`, FOLLOW(B) includes FIRST(β), and also FOLLOW(A) when β is
nullable.  The end marker `$$` is the explicit `End` terminal of the
`program` production. -/

/-- The grammar's nonterminals (`type` is spelt `typeN`). -/
inductive NT where
  | program | stmt_list | stmt | typeN | comp | expr | term | term_tail
  | factor | factor_tail | comp_op | add_op | mul_op
deriving DecidableEq, Repr

/-- A grammar symbol: terminal (token category) or nonterminal. -/
inductive Sym where
  | t (tk : TokTp)
  | n (x : NT)
deriving DecidableEq, Repr

/-- The documented productions (an absent right-hand side is epsilon). -/
def prods : List (NT × List Sym) :=
  [ (.program, [.n .stmt_list, .t .End]),
    (.stmt_list, [.n .stmt, .n .stmt_list]),
    (.stmt_list, []),
    (.typeN, [.t .Int]),
    (.typeN, [.t .Real]),
    (.typeN, []),
    (.stmt, [.t .Ident, .t .Gets, .n .expr]),
    (.stmt, [.t .Read, .n .typeN, .t .Ident]),
    (.stmt, [.t .Write, .n .expr]),
    (.stmt, [.t .If, .n .comp, .n .stmt_list, .t .Fi]),
    (.stmt, [.t .Do, .n .stmt_list, .t .Od]),
    (.stmt, [.t .Check, .n .comp]),
    (.stmt, [.t .Int, .t .Ident, .t .Gets, .n .expr]),
    (.stmt, [.t .Real, .t .Ident, .t .Gets, .n .expr]),
    (.comp, [.n .expr, .n .comp_op, .n .expr]),
    (.expr, [.n .term, .n .term_tail]),
    (.term, [.n .factor, .n .factor_tail]),
    (.term_tail, [.n .add_op, .n .term, .n .term_tail]),
    (.term_tail, []),
    (.factor, [.t .Ident]),
    (.factor, [.t .ILit]),
    (.factor, [.t .RLit]),
    (.factor, [.t .LParen, .n .expr, .t .RParen]),
    (.factor_tail, [.n .mul_op, .n .factor, .n .factor_tail]),
    (.factor_tail, []),
    (.comp_op, [.t .Greater]),
    (.comp_op, [.t .Lesser]),
    (.comp_op, [.t .EqualTo]),
    (.comp_op, [.t .NEqualTo]),
    (.comp_op, [.t .GreaterEq]),
    (.comp_op, [.t .LesserEq]),
    (.add_op, [.t .Plus]),
    (.add_op, [.t .Minus]),
    (.mul_op, [.t .Times]),
    (.mul_op, [.t .DivBy]) ]

/-- All nonterminals. -/
def allNT : List NT :=
  [.program, .stmt_list, .stmt, .typeN, .comp, .expr, .term, .term_tail,
   .factor, .factor_tail, .comp_op, .add_op, .mul_op]

/-- Table lookup with a default. -/
def lookupT {α : Type} (d : α) (tab : List (NT × α)) (x : NT) : α :=
  ((tab.find? (fun p => p.1 == x)).map Prod.snd).getD d

/-- One inflationary step of the nullability fixpoint. -/
def nullStep (tab : List (NT × Bool)) : List (NT × Bool) :=
  allNT.map fun x =>
    (x, prods.any fun p =>
      p.1 == x && p.2.all fun s =>
        match s with
        | .t _ => false
        | .n y => lookupT false tab y)

/-- Iterated nullability table, from the all-false table. -/
def nullTab : Nat → List (NT × Bool)
  | 0 => allNT.map fun x => (x, false)
  | k + 1 => nullStep (nullTab k)

/-- A nonterminal is nullable iff it derives epsilon (fixpoint reached
well within 14 iterations; see `nullTab_stable`). -/
def nullable (x : NT) : Bool := lookupT false (nullTab 14) x

/-- A symbol string is nullable iff all its symbols are nullable
nonterminals. -/
def nullableStr (l : List Sym) : Bool :=
  l.all fun s =>
    match s with
    | .t _ => false
    | .n y => nullable y

/-- Union of token-category lists, keeping the left operand's order. -/
def unionL (a b : List TokTp) : List TokTp :=
  a ++ b.filter (fun t => !(a.contains t))

/-- FIRST of a symbol string, given a FIRST table for nonterminals. -/
def firstOfStr (tab : List (NT × List TokTp)) : List Sym → List TokTp
  | [] => []
  | .t tk :: _ => [tk]
  | .n y :: rest =>
    if nullable y then unionL (lookupT [] tab y) (firstOfStr tab rest)
    else lookupT [] tab y

/-- One inflationary step of the FIRST fixpoint. -/
def firstStep (tab : List (NT × List TokTp)) : List (NT × List TokTp) :=
  allNT.map fun x =>
    (x, prods.foldl
      (fun acc p => if p.1 == x then unionL acc (firstOfStr tab p.2) else acc)
      (lookupT [] tab x))

/-- Iterated FIRST table, from the all-empty table. -/
def firstTab : Nat → List (NT × List TokTp)
  | 0 => allNT.map fun x => (x, [])
  | k + 1 => firstStep (firstTab k)

/-- FIRST of a symbol string (fixpoint reached well within 14
iterations; see `firstTab_stable`). -/
def firstStr (l : List Sym) : List TokTp := firstOfStr (firstTab 14) l

/-- Contributions of one right-hand side to FOLLOW(b): for every
occurrence `A --> α b β`, add FIRST(β), and FOLLOW(A) when β is
nullable. -/
def addFromRhs (ftab : List (NT × List TokTp)) (a : NT) (b : NT) :
    List TokTp → List Sym → List TokTp
  | acc, [] => acc
  | acc, .t _ :: rest => addFromRhs ftab a b acc rest
  | acc, .n y :: rest =>
    let acc2 :=
      if y == b then
        let acc' := unionL acc (firstStr rest)
        if nullableStr rest then unionL acc' (lookupT [] ftab a) else acc'
      else acc
    addFromRhs ftab a b acc2 rest

/-- One inflationary step of the FOLLOW fixpoint. -/
def followStep (ftab : List (NT × List TokTp)) : List (NT × List TokTp) :=
  allNT.map fun b =>
    (b, prods.foldl (fun acc p => addFromRhs ftab p.1 b acc p.2) (lookupT [] ftab b))

/-- Iterated FOLLOW table, from the all-empty table. -/
def followTab : Nat → List (NT × List TokTp)
  | 0 => allNT.map fun x => (x, [])
  | k + 1 => followStep (followTab k)

/-- The FOLLOW set of a nonterminal of the documented grammar (fixpoint
reached well within 20 iterations; see `followTab_stable`). -/
def followSet (x : NT) : List TokTp := lookupT [] (followTab 20) x

/-! ### The epsilon-selection sets hand-enumerated in the source -/

/-- Categories on which `Parser::stmt_list` selects epsilon. -/
def stmt_listEps : List TokTp := [.End]

/-- Categories on which `Parser::types` selects epsilon. -/
def typeEps : List TokTp := [.End]

/-- Categories on which `Parser::term_tail` selects epsilon. -/
def term_tailEps : List TokTp := [.RParen, .Ident, .Read, .Write, .End]

/-- Categories on which `Parser::factor_tail` selects epsilon. -/
def factor_tailEps : List TokTp := [.Plus, .Minus, .RParen, .Ident, .Read, .Write, .End]

/-- Extensional equality of token-category lists viewed as sets. -/
def sameSet (a b : List TokTp) : Bool :=
  a.all (fun t => b.contains t) && b.all (fun t => a.contains t)

/-- The token returned for a compound operator whose first character is
`c0`. -/
def compoundTok (tp : TokTp) (c0 : Char) (line col : Nat) : Token :=
  { tp := tp, text := [c0, '='], line := line, col := col }

/-- The token returned for a single-character operator `c0`. -/
def singleTok (tp : TokTp) (c0 : Char) (line col : Nat) : Token :=
  { tp := tp, text := [c0], line := line, col := col }


/-! ## Parser-layer invariants

`plainTok` records that `Parser::eat` is called only with expected
categories other than `Trunc` / `Float` (and `Begin`), so every consumed
token has another category.  `okInv` says a successful parser operation
consumed a prefix of such tokens; `errInv` says a failing one reports
exactly the current lookahead: the first unconsumed token (or the
perpetual end token), with everything before it consumed. -/

def plainTok (t : Token) : Prop := t.tp ≠ TokTp.Trunc ∧ t.tp ≠ TokTp.Float

def okInv (st st' : TokStream) : Prop :=
  st'.endTok = st.endTok ∧
  ∃ c, st.toks = c ++ st'.toks ∧ ∀ t ∈ c, plainTok t

def errInv (st : TokStream) (e : Token) : Prop :=
  (∃ pre rest, st.toks = pre ++ e :: rest ∧ ∀ t ∈ pre, plainTok t) ∨
  (e = st.endTok ∧ ∀ t ∈ st.toks, plainTok t)

def pInv (st : TokStream) : PRes → Prop
  | none => True
  | some (.ok st') => okInv st st'
  | some (.error e) => errInv st e


/-! ## Fixpoint stability of the grammar computations -/

/-- The nullability iteration has reached its fixpoint. -/
theorem nullTab_stable : nullTab 15 = nullTab 14 := by decide

/-- The FIRST iteration has reached its fixpoint. -/
theorem firstTab_stable : firstTab 15 = firstTab 14 := by decide

/-- The FOLLOW iteration has reached its fixpoint. -/
theorem followTab_stable : followTab 21 = followTab 20 := by decide

/-! ## Claim theorems -/

/-- C1: the claim fails on the code.  The input
`do if x == y write x fi od` is generated by the documented grammar
(`stmt --> do stmt_list od`, `stmt --> if comp stmt_list fi`,
`comp --> expr comp_op expr`), yet the program aborts with
`syntax error on line 1`: after matching `x`, `Parser::factor_tail` sees
the lookahead `==` (`EqualTo`), which is in FOLLOW(expr) of the grammar
but absent from the hand-enumerated epsilon set
`Plus | Minus | RParen | Ident | Read | Write | End`. -/
theorem C1_valid_nested_input_rejected :
    runLines ["do if x == y write x fi od".toList] 99 =
      some (.error (.synE 1)) ∧
    (.EqualTo : TokTp) ∈ followSet .expr ∧ (.EqualTo : TokTp) ∉ factor_tailEps ∧
    (.EqualTo : TokTp) ∉ term_tailEps := by
  refine ⟨by rfl, by decide, by decide, by decide⟩

/-- C2: the claim fails on the code.  None of the four hand-enumerated
epsilon-selection sets equals the corresponding nonterminal's FOLLOW set
as computed from the documented grammar: `stmt_list` uses `{End}` but
FOLLOW(stmt_list) = `{End, Fi, Od}`; `type` uses `{End}` but
FOLLOW(type) = `{Ident}`; `term_tail` and `factor_tail` omit the six
comparison operators and `If/Do/Check/Int/Real/Fi/Od`.  Consequently the
valid program `read x` is rejected with a syntax error. -/
theorem C2_epsilon_sets_differ_from_follow_sets :
    sameSet stmt_listEps (followSet .stmt_list) = false ∧
    sameSet typeEps (followSet .typeN) = false ∧
    sameSet term_tailEps (followSet .term_tail) = false ∧
    sameSet factor_tailEps (followSet .factor_tail) = false ∧
    runLines ["read x".toList] 99 = some (.error (.synE 1)) := by
  refine ⟨by decide, by decide, by decide, by decide, by rfl⟩

/-- C4: the claim fails on the code.  On input `@` the offending
unrecognized character is `@` (0x40), but before panicking the scanner
has already advanced its lookahead, so the diagnostic
`unexpected character '{}' (0x{:x})` prints the *following* character —
here the appended newline (0x0a) — not the offending `@`. -/
theorem C4_unexpected_char_diagnostic_names_wrong_char :
    scan 99 (initScanner ["@".toList]) = some (.error (.unexpected '\x0a')) ∧
    ('\x0a' : Char) ≠ '@' := by
  refine ⟨by rfl, by decide⟩

/-! ## Input-layer lemmas: `getc` versus the delivered stream -/

theorem fixNL_ne_nil (l : List Char) : fixNL l ≠ [] := by
  unfold fixNL
  split
  · rintro rfl; simp_all
  · simp

/-- `Input::getc` reads exactly the head of the delivered stream: either
the stream is empty (sentinel reached, which also freezes the stream of
the successor state), or the returned character is its head and the
successor state delivers its tail. -/
theorem getc_stream (s : Input) :
    ((Input.getc s).1.ch = EOF ∧ stream s = [] ∧ stream (Input.getc s).2 = []) ∨
    ((Input.getc s).1.ch ≠ EOF ∧ stream s = (Input.getc s).1.ch :: stream (Input.getc s).2) := by
  rcases hd : s.buf.drop s.next_col with _ | ⟨ch, tl⟩
  · -- buffer exhausted: one refill step
    have hrend : rendered s = (s.stdin.map fixNL).flatten := by
      simp [rendered, hd]
    rcases hstdin : s.stdin with _ | ⟨l, rest⟩
    · -- no more lines: buffer becomes the sentinel
      left
      constructor
      · simp [Input.getc, hd, Input.getc_refill, Input.refill, hstdin, Input.emit]
      constructor
      · simp [stream, hrend, hstdin]
      · simp [Input.getc, hd, Input.getc_refill, Input.refill, hstdin, Input.emit,
          stream, rendered, EOF]
    · -- fetch one line (with the newline fix applied)
      obtain ⟨h, t, hfix⟩ : ∃ h t, fixNL l = h :: t := by
        rcases hfl : fixNL l with _ | ⟨h, t⟩
        · exact absurd hfl (fixNL_ne_nil l)
        · exact ⟨h, t, rfl⟩
      have hstr : stream s = (h :: (t ++ (rest.map fixNL).flatten)).takeWhile (fun c => c != EOF) := by
        simp [stream, hrend, hstdin, hfix]
      by_cases heof : h = EOF
      · left
        subst heof
        constructor
        · simp [Input.getc, hd, Input.getc_refill, Input.refill, hstdin, hfix, Input.emit]
        constructor
        · simp [hstr, List.takeWhile_cons]
        · simp [Input.getc, hd, Input.getc_refill, Input.refill, hstdin, hfix, Input.emit,
            stream, rendered]
      · right
        constructor
        · simp [Input.getc, hd, Input.getc_refill, Input.refill, hstdin, hfix, Input.emit, heof]
        · have hbne : (h != EOF) = true := bne_iff_ne.mpr heof
          simp [Input.getc, hd, Input.getc_refill, Input.refill, hstdin, hfix, Input.emit, heof,
            hstr, List.takeWhile_cons, hbne, stream, rendered]
  · -- a character is available in the buffer
    have hdrop1 : s.buf.drop (s.next_col + 1) = tl := by
      rw [← List.tail_drop, hd]; rfl
    have hrend : rendered s = ch :: (tl ++ (s.stdin.map fixNL).flatten) := by
      simp [rendered, hd]
    by_cases heof : ch = EOF
    · left
      subst heof
      constructor
      · simp [Input.getc, hd, Input.emit]
      constructor
      · simp [stream, hrend, List.takeWhile_cons]
      · simp [Input.getc, hd, Input.emit, stream, hrend, List.takeWhile_cons]
    · right
      constructor
      · simp [Input.getc, hd, Input.emit, heof]
      · have hbne : (ch != EOF) = true := bne_iff_ne.mpr heof
        simp [Input.getc, hd, Input.emit, heof, stream, hrend, List.takeWhile_cons, hbne,
          rendered, hdrop1]

/-- Once the delivered stream is empty, `getc` returns the sentinel and
the stream stays empty. -/
theorem getc_of_stream_nil (s : Input) (h : stream s = []) :
    (Input.getc s).1.ch = EOF ∧ stream (Input.getc s).2 = [] := by
  rcases getc_stream s with ⟨h1, _, h3⟩ | ⟨_, h2⟩
  · exact ⟨h1, h3⟩
  · rw [h] at h2; exact absurd h2 (by simp)

theorem getcN_of_stream_nil : ∀ (n : Nat) (s : Input), stream s = [] →
    (getcN s n).1.ch = EOF ∧ stream (getcN s n).2 = [] := by
  intro n
  induction n with
  | zero =>
    intro s h
    refine ⟨(getc_of_stream_nil s h).1, ?_⟩
    simpa [getcN] using (getc_of_stream_nil s h).2
  | succ n ih =>
    intro s h
    have h2 := (getc_of_stream_nil s h).2
    simpa [getcN] using ih (Input.getc s).2 h2

/-- C7: once `Input::getc` has returned the end-of-stream sentinel,
every subsequent call returns the sentinel again; `getc` is a total
function of the state (it never fails and never exhausts). -/
theorem C7_eof_sentinel_permanent (s : Input) (n : Nat)
    (h : (Input.getc s).1.ch = EOF) :
    (getcN (Input.getc s).2 n).1.ch = EOF := by
  rcases getc_stream s with ⟨_, _, h3⟩ | ⟨h1, _⟩
  · exact (getcN_of_stream_nil n _ h3).1
  · exact absurd h h1

/-- Witness for C7 at a concrete state: the buffer holds the sentinel at
the cursor, and the third further call still returns the sentinel. -/
theorem C7_witness :
    (getcN (Input.getc { buf := [EOF], line := 1, next_col := 0, stdin := [] }).2 3).1.ch = EOF :=
  C7_eof_sentinel_permanent { buf := [EOF], line := 1, next_col := 0, stdin := [] } 3 (by rfl)

/-- C10: a `U+0004` character embedded in the input text is returned by
`Input::getc` as the end-of-stream sentinel without advancing the cursor
(first conjunct, directly from the `if ch != EOF` guard), so scanning
reports end of stream there; concretely, the input line
`int x := 3␄ @@@ (((` — whose remainder after the `U+0004` is malformed —
parses successfully. -/
theorem C10_embedded_eof_truncates_input :
    (∀ s : Input, (s.buf.drop s.next_col).head? = some EOF →
      Input.getc s = ({ ch := EOF, line := s.line, col := s.next_col }, s)) ∧
    runLines ["int x := 3\x04 @@@ (((".toList] 99 = some (.ok ()) := by
  constructor
  · intro s h
    simp [Input.getc, h, Input.emit]
  · rfl

/-- Witness for C10's quantified conjunct at a concrete state whose
cursor sits on an embedded `U+0004`. -/
theorem C10_witness :
    Input.getc { buf := ['\x04', 'a'], line := 3, next_col := 0, stdin := [['z']] } =
      ({ ch := EOF, line := 3, col := 0 },
       { buf := ['\x04', 'a'], line := 3, next_col := 0, stdin := [['z']] }) :=
  C10_embedded_eof_truncates_input.1 _ (by rfl)

/-! ## Character-class facts -/

theorem white_ne_eof {c : Char} (h : rsWhitespace c = true) : c ≠ EOF := by
  rintro rfl; exact absurd h (by decide)

theorem alpha_ne_eof {c : Char} (h : rsAlphabetic c = true) : c ≠ EOF := by
  rintro rfl; exact absurd h (by decide)

theorem digit_ne_eof {c : Char} (h : rsAsciiDigit c = true) : c ≠ EOF := by
  rintro rfl; exact absurd h (by decide)

theorem alpha_not_digit {c : Char} (h : rsAlphabetic c = true) : rsAsciiDigit c = false := by
  simp [rsAlphabetic] at h
  simp [rsAsciiDigit]
  omega

theorem alnum_not_white {c : Char} (h : rsAlphanumeric c = true) : rsWhitespace c = false := by
  simp [rsAlphanumeric, rsAlphabetic, rsAsciiDigit] at h
  simp [rsWhitespace]
  omega

theorem alphaKeep_ne_eof {c : Char} (h : (c = '_' || rsAlphanumeric c) = true) : c ≠ EOF := by
  simp only [Bool.or_eq_true, decide_eq_true_eq] at h
  rcases h with rfl | h
  · decide
  · rintro rfl; exact absurd h (by decide)

theorem alphaKeep_not_white {c : Char} (h : (c = '_' || rsAlphanumeric c) = true) :
    rsWhitespace c = false := by
  simp only [Bool.or_eq_true, decide_eq_true_eq] at h
  rcases h with rfl | h
  · decide
  · exact alnum_not_white h

theorem digitKeep_ne_eof {c : Char} (h : (rsAsciiDigit c || c = '.') = true) : c ≠ EOF := by
  simp only [Bool.or_eq_true, decide_eq_true_eq] at h
  rcases h with h | rfl
  · exact digit_ne_eof h
  · decide

theorem digitKeep_not_white {c : Char} (h : (rsAsciiDigit c || c = '.') = true) :
    rsWhitespace c = false := by
  simp only [Bool.or_eq_true, decide_eq_true_eq] at h
  rcases h with h | rfl
  · exact alnum_not_white (by simp [rsAlphanumeric, h])
  · decide

/-! ## Scanner-layer lemmas: text is taken verbatim from the stream -/

/-- Advancing the lookahead shifts the scanner's character stream by one. -/
theorem charStream_advance (sc : Scanner) : charStream (advanceSc sc) = stream sc.input := by
  rcases getc_stream sc.input with ⟨h1, h2, h3⟩ | ⟨h1, h2⟩
  · simp [charStream, advanceSc, h1, h2, h3]
  · simp [charStream, advanceSc, h1, ← h2]

theorem charStream_cons {sc : Scanner} (h : sc.next_char.ch ≠ EOF) :
    charStream sc = sc.next_char.ch :: charStream (advanceSc sc) := by
  rw [charStream_advance]; simp [charStream, h]

/-- The whitespace-skip loop consumes exactly a whitespace prefix of the
stream and stops on a non-whitespace lookahead. -/
theorem skipWs_spec : ∀ (fuel : Nat) (sc sc1 : Scanner), skipWs fuel sc = some sc1 →
    (∃ ws, (∀ c ∈ ws, rsWhitespace c = true) ∧ charStream sc = ws ++ charStream sc1) ∧
      rsWhitespace sc1.next_char.ch = false := by
  intro fuel
  induction fuel with
  | zero => intro sc sc1 h; simp [skipWs] at h
  | succ n ih =>
    intro sc sc1 h
    simp only [skipWs] at h
    by_cases hw : rsWhitespace sc.next_char.ch
    · rw [if_pos hw] at h
      obtain ⟨⟨ws, hws, hcs⟩, hend⟩ := ih _ _ h
      refine ⟨⟨sc.next_char.ch :: ws, ?_, ?_⟩, hend⟩
      · intro c hc
        rcases List.mem_cons.mp hc with rfl | hc
        · exact hw
        · exact hws c hc
      · rw [charStream_cons (white_ne_eof hw), hcs]; simp
    · rw [if_neg hw] at h
      obtain rfl : sc = sc1 := by simpa using h
      exact ⟨⟨[], by simp, by simp⟩, by simpa using hw⟩

/-- The maximal-munch loop moves exactly the munched characters from the
stream into the accumulated text. -/
theorem munchWhile_stream (keep : Char → Bool) (hkeep : ∀ c, keep c = true → c ≠ EOF) :
    ∀ (fuel : Nat) (sc : Scanner) (acc text : List Char) (sc' : Scanner),
      sc.next_char.ch ≠ EOF →
      munchWhile keep fuel sc acc = some (text, sc') →
      ∃ mid, text = acc ++ mid ∧ charStream sc = mid ++ charStream sc' := by
  intro fuel
  induction fuel with
  | zero => intro sc acc text sc' _ h; simp [munchWhile] at h
  | succ n ih =>
    intro sc acc text sc' hne h
    simp only [munchWhile] at h
    by_cases hk : keep (advanceSc sc).next_char.ch
    · rw [if_pos hk] at h
      obtain ⟨mid, hmid, hcs⟩ := ih (advanceSc sc) _ text sc' (hkeep _ hk) h
      refine ⟨sc.next_char.ch :: mid, by simp [hmid], ?_⟩
      rw [charStream_cons hne, hcs]; simp
    · rw [if_neg hk] at h
      obtain ⟨rfl, rfl⟩ : acc ++ [sc.next_char.ch] = text ∧ advanceSc sc = sc' := by
        simpa using h
      exact ⟨[sc.next_char.ch], by simp, by rw [charStream_cons hne]; simp⟩

/-- Every character the maximal-munch loop puts into the text satisfies
any property enjoyed by the accumulator, the first lookahead, and the
continuation condition. -/
theorem munchWhile_prop (keep : Char → Bool) (P : Char → Prop)
    (hkeep : ∀ c, keep c = true → P c) :
    ∀ (fuel : Nat) (sc : Scanner) (acc text : List Char) (sc' : Scanner),
      munchWhile keep fuel sc acc = some (text, sc') →
      (∀ c ∈ acc, P c) → P sc.next_char.ch →
      ∀ c ∈ text, P c := by
  intro fuel
  induction fuel with
  | zero => intro sc acc text sc' h; simp [munchWhile] at h
  | succ n ih =>
    intro sc acc text sc' h hacc hhd
    simp only [munchWhile] at h
    have hacc2 : ∀ c ∈ acc ++ [sc.next_char.ch], P c := by
      intro c hc
      rcases List.mem_append.mp hc with hc | hc
      · exact hacc c hc
      · simp at hc; exact hc ▸ hhd
    by_cases hk : keep (advanceSc sc).next_char.ch
    · rw [if_pos hk] at h
      exact ih (advanceSc sc) _ text sc' h hacc2 (hkeep _ hk)
    · rw [if_neg hk] at h
      obtain ⟨rfl, rfl⟩ : acc ++ [sc.next_char.ch] = text ∧ advanceSc sc = sc' := by
        simpa using h
      exact hacc2


theorem keywordTp_ne_rlit (text : List Char) : keywordTp text ≠ .RLit := by
  rw [keywordTp]
  by_cases h1 : text = "read".toList
  · rw [if_pos h1]; simp
  · rw [if_neg h1]
    by_cases h2 : text = "write".toList
    · rw [if_pos h2]; simp
    · rw [if_neg h2]
      by_cases h3 : text = "if".toList
      · rw [if_pos h3]; simp
      · rw [if_neg h3]
        by_cases h4 : text = "fi".toList
        · rw [if_pos h4]; simp
        · rw [if_neg h4]
          by_cases h5 : text = "do".toList
          · rw [if_pos h5]; simp
          · rw [if_neg h5]
            by_cases h6 : text = "od".toList
            · rw [if_pos h6]; simp
            · rw [if_neg h6]
              by_cases h7 : text = "int".toList
              · rw [if_pos h7]; simp
              · rw [if_neg h7]
                by_cases h8 : text = "real".toList
                · rw [if_pos h8]; simp
                · rw [if_neg h8]
                  by_cases h9 : text = "trunc".toList
                  · rw [if_pos h9]; simp
                  · rw [if_neg h9]
                    by_cases h10 : text = "float".toList
                    · rw [if_pos h10]; simp
                    · rw [if_neg h10]
                      by_cases h11 : text = "check".toList
                      · rw [if_pos h11]; simp
                      · rw [if_neg h11]
                        simp

theorem opTok_shape {c : Char} {line col : Nat} {sc1 : Scanner} {t : Token} {sc' : Scanner}
    (h : opTok c line col sc1 = some (.ok (t, sc'))) :
    t.tp ≠ .RLit ∧
    ((t.text = [c] ∧ sc' = sc1) ∨
     (t.text = [c, '='] ∧ sc1.next_char.ch = '=' ∧ sc' = advanceSc sc1)) := by
  unfold opTok at h
  split at h
  · by_cases hc : sc1.next_char.ch = '='
    · rw [if_neg (fun hn => hn hc)] at h
      simp only [Option.some.injEq, Except.ok.injEq, Prod.mk.injEq] at h
      obtain ⟨rfl, rfl⟩ := h
      exact ⟨by simp, Or.inr ⟨rfl, hc, rfl⟩⟩
    · rw [if_pos hc] at h; simp at h
  · by_cases hc : sc1.next_char.ch = '='
    · rw [if_neg (fun hn => hn hc)] at h
      simp only [Option.some.injEq, Except.ok.injEq, Prod.mk.injEq] at h
      obtain ⟨rfl, rfl⟩ := h
      exact ⟨by simp, Or.inr ⟨rfl, hc, rfl⟩⟩
    · rw [if_pos hc] at h; simp at h
  · by_cases hc : sc1.next_char.ch = '='
    · rw [if_neg (fun hn => hn hc)] at h
      simp only [Option.some.injEq, Except.ok.injEq, Prod.mk.injEq] at h
      obtain ⟨rfl, rfl⟩ := h
      exact ⟨by simp, Or.inr ⟨rfl, hc, rfl⟩⟩
    · rw [if_pos hc] at h; simp at h
  · by_cases hc : sc1.next_char.ch = '='
    · rw [if_pos hc] at h
      simp only [Option.some.injEq, Except.ok.injEq, Prod.mk.injEq] at h
      obtain ⟨rfl, rfl⟩ := h
      exact ⟨by simp, Or.inr ⟨rfl, hc, rfl⟩⟩
    · rw [if_neg hc] at h
      simp only [Option.some.injEq, Except.ok.injEq, Prod.mk.injEq] at h
      obtain ⟨rfl, rfl⟩ := h
      exact ⟨by simp, Or.inl ⟨rfl, rfl⟩⟩
  · by_cases hc : sc1.next_char.ch = '='
    · rw [if_pos hc] at h
      simp only [Option.some.injEq, Except.ok.injEq, Prod.mk.injEq] at h
      obtain ⟨rfl, rfl⟩ := h
      exact ⟨by simp, Or.inr ⟨rfl, hc, rfl⟩⟩
    · rw [if_neg hc] at h
      simp only [Option.some.injEq, Except.ok.injEq, Prod.mk.injEq] at h
      obtain ⟨rfl, rfl⟩ := h
      exact ⟨by simp, Or.inl ⟨rfl, rfl⟩⟩
  · simp only [Option.some.injEq, Except.ok.injEq, Prod.mk.injEq] at h
    obtain ⟨rfl, rfl⟩ := h
    exact ⟨by simp, Or.inl ⟨rfl, rfl⟩⟩
  · simp only [Option.some.injEq, Except.ok.injEq, Prod.mk.injEq] at h
    obtain ⟨rfl, rfl⟩ := h
    exact ⟨by simp, Or.inl ⟨rfl, rfl⟩⟩
  · simp only [Option.some.injEq, Except.ok.injEq, Prod.mk.injEq] at h
    obtain ⟨rfl, rfl⟩ := h
    exact ⟨by simp, Or.inl ⟨rfl, rfl⟩⟩
  · simp only [Option.some.injEq, Except.ok.injEq, Prod.mk.injEq] at h
    obtain ⟨rfl, rfl⟩ := h
    exact ⟨by simp, Or.inl ⟨rfl, rfl⟩⟩
  · simp only [Option.some.injEq, Except.ok.injEq, Prod.mk.injEq] at h
    obtain ⟨rfl, rfl⟩ := h
    exact ⟨by simp, Or.inl ⟨rfl, rfl⟩⟩
  · simp only [Option.some.injEq, Except.ok.injEq, Prod.mk.injEq] at h
    obtain ⟨rfl, rfl⟩ := h
    exact ⟨by simp, Or.inl ⟨rfl, rfl⟩⟩
  · simp at h

/-- Core properties of a successful `scanAt`: no real-literal token is
ever produced; the token text is taken verbatim from the head of the
character stream; the text inherits non-whitespaceness from the
lookahead; and a digit-initiated token is always an integer literal. -/
theorem scanAt_ok_props {fuel : Nat} {sc : Scanner} {t : Token} {sc' : Scanner}
    (h : scanAt fuel sc = some (.ok (t, sc'))) :
    t.tp ≠ .RLit ∧
    charStream sc = t.text ++ charStream sc' ∧
    (rsWhitespace sc.next_char.ch = false → ∀ c ∈ t.text, rsWhitespace c = false) ∧
    (rsAsciiDigit sc.next_char.ch = true → t.tp = .ILit) := by
  unfold scanAt at h
  by_cases heof : sc.next_char.ch = EOF
  · rw [if_pos heof] at h
    simp only [Option.some.injEq, Except.ok.injEq, Prod.mk.injEq] at h
    obtain ⟨rfl, rfl⟩ := h
    refine ⟨by simp, by simp [charStream, heof], by simp, ?_⟩
    intro hd; exact absurd heof (digit_ne_eof hd)
  · rw [if_neg heof] at h
    by_cases halpha : rsAlphabetic sc.next_char.ch = true
    · rw [if_pos halpha] at h
      cases hm : munchWhile (fun c => c = '_' || rsAlphanumeric c) fuel sc [] with
      | none => rw [hm] at h; simp at h
      | some p =>
        obtain ⟨text, sc2⟩ := p
        rw [hm] at h
        simp only [Option.some.injEq, Except.ok.injEq, Prod.mk.injEq] at h
        obtain ⟨rfl, rfl⟩ := h
        obtain ⟨mid, hmid, hcs⟩ :=
          munchWhile_stream _ (fun c hc => alphaKeep_ne_eof hc) fuel sc [] text sc2 heof hm
        refine ⟨keywordTp_ne_rlit text, by simpa [hmid] using hcs, ?_, ?_⟩
        · intro hw
          exact munchWhile_prop _ _ (fun c hc => alphaKeep_not_white hc) fuel sc [] text sc2 hm
            (by simp) hw
        · intro hd; exact absurd hd (by simp [alpha_not_digit halpha])
    · rw [if_neg halpha] at h
      by_cases hdig : rsAsciiDigit sc.next_char.ch = true
      · rw [if_pos hdig] at h
        cases hm : munchWhile (fun c => rsAsciiDigit c || c = '.') fuel sc [] with
        | none => rw [hm] at h; simp at h
        | some p =>
          obtain ⟨text, sc2⟩ := p
          rw [hm] at h
          simp only [Option.some.injEq, Except.ok.injEq, Prod.mk.injEq] at h
          obtain ⟨rfl, rfl⟩ := h
          obtain ⟨mid, hmid, hcs⟩ :=
            munchWhile_stream _ (fun c hc => digitKeep_ne_eof hc) fuel sc [] text sc2 heof hm
          refine ⟨by simp, by simpa [hmid] using hcs, ?_, fun _ => rfl⟩
          intro hw
          exact munchWhile_prop _ _ (fun c hc => digitKeep_not_white hc) fuel sc [] text sc2 hm
            (by simp) hw
      · rw [if_neg hdig] at h
        obtain ⟨hrl, hcases⟩ := opTok_shape h
        refine ⟨hrl, ?_, ?_, fun hd => absurd hd (by simp [hdig])⟩
        · rcases hcases with ⟨htext, rfl⟩ | ⟨htext, hch, rfl⟩
          · rw [htext, charStream_cons heof]; simp
          · rw [htext, charStream_cons heof,
              charStream_cons (show (advanceSc sc).next_char.ch ≠ EOF by rw [hch]; decide), hch]
            simp
        · intro hw c hc
          rcases hcases with ⟨htext, _⟩ | ⟨htext, _, _⟩ <;> rw [htext] at hc <;> simp at hc
          · exact hc ▸ hw
          · rcases hc with rfl | rfl
            · exact hw
            · decide

/-- Core properties of a successful `scan`: no real literal; the token
text is whitespace-free and appears verbatim in the stream right after a
whitespace prefix. -/
theorem scan_ok_props {fuel : Nat} {sc : Scanner} {t : Token} {sc' : Scanner}
    (h : scan fuel sc = some (.ok (t, sc'))) :
    t.tp ≠ .RLit ∧
    (∃ ws, (∀ c ∈ ws, rsWhitespace c = true) ∧
      charStream sc = ws ++ t.text ++ charStream sc') ∧
    (∀ c ∈ t.text, rsWhitespace c = false) := by
  unfold scan at h
  cases hskip : skipWs fuel sc with
  | none => rw [hskip] at h; simp at h
  | some sc1 =>
    rw [hskip] at h
    obtain ⟨⟨ws, hws, hcs⟩, hnw⟩ := skipWs_spec fuel sc sc1 hskip
    obtain ⟨hrl, hstream, hwhite, _⟩ := scanAt_ok_props h
    exact ⟨hrl, ⟨ws, hws, by rw [hcs, hstream, List.append_assoc]⟩, hwhite hnw⟩

/-- When the post-skip lookahead starts no other rule, `scanAt` runs the
operator tail. -/
theorem scanAt_op {fuel : Nat} {sc : Scanner}
    (h1 : sc.next_char.ch ≠ EOF) (h2 : rsAlphabetic sc.next_char.ch = false)
    (h3 : rsAsciiDigit sc.next_char.ch = false) :
    scanAt fuel sc = opTok sc.next_char.ch sc.next_char.line sc.next_char.col (advanceSc sc) := by
  rw [scanAt, if_neg h1, if_neg (by simp [h2]), if_neg (by simp [h3])]

/-- Reduction of the operator tail at `:` (requires a following `=`). -/
theorem opTok_colon (line col : Nat) (sc1 : Scanner) :
    opTok ':' line col sc1 =
      if sc1.next_char.ch ≠ '=' then some (.error (.expectedEq ':' sc1.next_char.ch))
      else some (.ok (compoundTok .Gets ':' line col, advanceSc sc1)) := rfl

/-- Reduction of the operator tail at `=` (requires a following `=`). -/
theorem opTok_eq (line col : Nat) (sc1 : Scanner) :
    opTok '=' line col sc1 =
      if sc1.next_char.ch ≠ '=' then some (.error (.expectedEq '=' sc1.next_char.ch))
      else some (.ok (compoundTok .EqualTo '=' line col, advanceSc sc1)) := rfl

/-- Reduction of the operator tail at `!` (requires a following `=`). -/
theorem opTok_bang (line col : Nat) (sc1 : Scanner) :
    opTok '!' line col sc1 =
      if sc1.next_char.ch ≠ '=' then some (.error (.expectedEq '!' sc1.next_char.ch))
      else some (.ok (compoundTok .NEqualTo '!' line col, advanceSc sc1)) := rfl

/-- Reduction of the operator tail at `<` (single unless followed by `=`). -/
theorem opTok_lt (line col : Nat) (sc1 : Scanner) :
    opTok '<' line col sc1 =
      if sc1.next_char.ch = '=' then
        some (.ok (compoundTok .LesserEq '<' line col, advanceSc sc1))
      else some (.ok (singleTok .Lesser '<' line col, sc1)) := rfl

/-- Reduction of the operator tail at `>` (single unless followed by `=`). -/
theorem opTok_gt (line col : Nat) (sc1 : Scanner) :
    opTok '>' line col sc1 =
      if sc1.next_char.ch = '=' then
        some (.ok (compoundTok .GreaterEq '>' line col, advanceSc sc1))
      else some (.ok (singleTok .Greater '>' line col, sc1)) := rfl

/-- C6: after the whitespace skip, consuming `:`, `=` or `!` demands that
the very next character be `=`: otherwise scanning fails with the
`extected '='` LexicalError reporting that following character (whose
codepoint the panic also prints); if it is `=`, it is consumed and the
compound token (`Gets`, `EqualTo`, `NEqualTo`) is returned.  `<` and `>`
are returned as single-character tokens unless immediately followed by
`=`, in which case `LesserEq` / `GreaterEq` is returned. -/
theorem C6_compound_operator_scanning (fuel : Nat) (sc : Scanner) :
    (sc.next_char.ch = ':' →
      ((advanceSc sc).next_char.ch ≠ '=' →
        scanAt fuel sc = some (.error (.expectedEq ':' (advanceSc sc).next_char.ch))) ∧
      ((advanceSc sc).next_char.ch = '=' →
        scanAt fuel sc =
          some (.ok (compoundTok .Gets ':' sc.next_char.line sc.next_char.col,
            advanceSc (advanceSc sc))))) ∧
    (sc.next_char.ch = '=' →
      ((advanceSc sc).next_char.ch ≠ '=' →
        scanAt fuel sc = some (.error (.expectedEq '=' (advanceSc sc).next_char.ch))) ∧
      ((advanceSc sc).next_char.ch = '=' →
        scanAt fuel sc =
          some (.ok (compoundTok .EqualTo '=' sc.next_char.line sc.next_char.col,
            advanceSc (advanceSc sc))))) ∧
    (sc.next_char.ch = '!' →
      ((advanceSc sc).next_char.ch ≠ '=' →
        scanAt fuel sc = some (.error (.expectedEq '!' (advanceSc sc).next_char.ch))) ∧
      ((advanceSc sc).next_char.ch = '=' →
        scanAt fuel sc =
          some (.ok (compoundTok .NEqualTo '!' sc.next_char.line sc.next_char.col,
            advanceSc (advanceSc sc))))) ∧
    (sc.next_char.ch = '<' →
      ((advanceSc sc).next_char.ch = '=' →
        scanAt fuel sc =
          some (.ok (compoundTok .LesserEq '<' sc.next_char.line sc.next_char.col,
            advanceSc (advanceSc sc)))) ∧
      ((advanceSc sc).next_char.ch ≠ '=' →
        scanAt fuel sc =
          some (.ok (singleTok .Lesser '<' sc.next_char.line sc.next_char.col,
            advanceSc sc)))) ∧
    (sc.next_char.ch = '>' →
      ((advanceSc sc).next_char.ch = '=' →
        scanAt fuel sc =
          some (.ok (compoundTok .GreaterEq '>' sc.next_char.line sc.next_char.col,
            advanceSc (advanceSc sc)))) ∧
      ((advanceSc sc).next_char.ch ≠ '=' →
        scanAt fuel sc =
          some (.ok (singleTok .Greater '>' sc.next_char.line sc.next_char.col,
            advanceSc sc)))) := by
  refine ⟨fun hch => ?_, fun hch => ?_, fun hch => ?_, fun hch => ?_, fun hch => ?_⟩
  · rw [scanAt_op (by rw [hch]; decide) (by rw [hch]; decide) (by rw [hch]; decide), hch,
      opTok_colon]
    exact ⟨fun hne => by rw [if_pos hne], fun heq => by rw [if_neg (fun hn => hn heq)]⟩
  · rw [scanAt_op (by rw [hch]; decide) (by rw [hch]; decide) (by rw [hch]; decide), hch,
      opTok_eq]
    exact ⟨fun hne => by rw [if_pos hne], fun heq => by rw [if_neg (fun hn => hn heq)]⟩
  · rw [scanAt_op (by rw [hch]; decide) (by rw [hch]; decide) (by rw [hch]; decide), hch,
      opTok_bang]
    exact ⟨fun hne => by rw [if_pos hne], fun heq => by rw [if_neg (fun hn => hn heq)]⟩
  · rw [scanAt_op (by rw [hch]; decide) (by rw [hch]; decide) (by rw [hch]; decide), hch,
      opTok_lt]
    exact ⟨fun heq => by rw [if_pos heq], fun hne => by rw [if_neg hne]⟩
  · rw [scanAt_op (by rw [hch]; decide) (by rw [hch]; decide) (by rw [hch]; decide), hch,
      opTok_gt]
    exact ⟨fun heq => by rw [if_pos heq], fun hne => by rw [if_neg hne]⟩

/-- Witness for C6 at a concrete state: the lookahead is `:` and the
following character is `y`, so scanning fails reporting `y`. -/
theorem C6_witness :
    scanAt 5 { input := { buf := ['y'], line := 1, next_col := 0, stdin := [] }, next_char := { ch := ':', line := 1, col := 0 } } =
      some (.error (.expectedEq ':' 'y')) :=
  ((C6_compound_operator_scanning 5
    { input := { buf := ['y'], line := 1, next_col := 0, stdin := [] }, next_char := { ch := ':', line := 1, col := 0 } }).1 rfl).1 (by decide)

/-- C3: every token `scan` produces from a leading ASCII digit has
category `ILit` (a consumed `.` does not change the decision), and no
token of category `RLit` is ever produced; concretely, scanning `1.2.3`
yields one `ILit` token with text `1.2.3`. -/
theorem C3_digit_tokens_ilit_rlit_never :
    (∀ (fuel : Nat) (sc : Scanner) (t : Token) (sc' : Scanner),
      scan fuel sc = some (.ok (t, sc')) → t.tp ≠ .RLit) ∧
    (∀ (fuel : Nat) (sc : Scanner) (t : Token) (sc' : Scanner),
      rsAsciiDigit sc.next_char.ch = true →
      scanAt fuel sc = some (.ok (t, sc')) → t.tp = .ILit) ∧
    scan 99 (initScanner ["1.2.3".toList]) =
      some (.ok ({ tp := .ILit, text := "1.2.3".toList, line := 1, col := 0 },
        { input := { buf := "1.2.3\x0a".toList, line := 1, next_col := 6, stdin := [] }, next_char := { ch := '\x0a', line := 1, col := 5 } })) := by
  refine ⟨?_, ?_, by rfl⟩
  · intro fuel sc t sc' h; exact (scan_ok_props h).1
  · intro fuel sc t sc' hd h; exact (scanAt_ok_props h).2.2.2 hd

/-- Witness for C3 at a concrete input, via the first quantified
conjunct. -/
theorem C3_witness :
    ({ tp := .ILit, text := "1.2.3".toList, line := 1, col := 0 } : Token).tp ≠ TokTp.RLit :=
  C3_digit_tokens_ilit_rlit_never.1 99 (initScanner ["1.2.3".toList])
    { tp := .ILit, text := "1.2.3".toList, line := 1, col := 0 }
    { input := { buf := "1.2.3\x0a".toList, line := 1, next_col := 6, stdin := [] }, next_char := { ch := '\x0a', line := 1, col := 5 } }
    (by rfl)

/-- C8: no token text contains a whitespace character (in particular no
line terminator), the text is byte-for-byte the matched source text
(it appears verbatim in the delivered character stream, separated from
what precedes it only by discarded whitespace), and the `matched` trace
line appends exactly `: <text>` for the identifier and literal
categories. -/
theorem C8_token_text_whitespace_free_and_verbatim :
    (∀ (fuel : Nat) (sc : Scanner) (t : Token) (sc' : Scanner),
      scan fuel sc = some (.ok (t, sc')) →
      (∀ c ∈ t.text, rsWhitespace c = false) ∧
      ∃ ws, (∀ c ∈ ws, rsWhitespace c = true) ∧
        charStream sc = ws ++ t.text ++ charStream sc') ∧
    (∀ t : Token, t.tp = .Ident ∨ t.tp = .ILit ∨ t.tp = .RLit →
      Parser.matchedLine t.tp t =
        "matched " ++ Parser.tpName t.tp ++ (": " ++ String.mk t.text)) := by
  constructor
  · intro fuel sc t sc' h
    obtain ⟨_, hstr, hwhite⟩ := scan_ok_props h
    exact ⟨hwhite, hstr⟩
  · rintro t (h | h | h) <;> rw [Parser.matchedLine, h] <;> rfl

/-- Witness for C8 at a concrete input (` x`: an identifier token after
one discarded space). -/
theorem C8_witness :
    (∀ c ∈ ({ tp := .Ident, text := ['x'], line := 1, col := 1 } : Token).text,
      rsWhitespace c = false) ∧
    ∃ ws, (∀ c ∈ ws, rsWhitespace c = true) ∧
      charStream (initScanner [" x".toList]) =
        ws ++ ({ tp := .Ident, text := ['x'], line := 1, col := 1 } : Token).text ++
          charStream { input := { buf := [' ', 'x', '\x0a'], line := 1, next_col := 3, stdin := [] }, next_char := { ch := '\x0a', line := 1, col := 2 } } :=
  C8_token_text_whitespace_free_and_verbatim.1 99 (initScanner [" x".toList])
    { tp := .Ident, text := ['x'], line := 1, col := 1 }
    { input := { buf := [' ', 'x', '\x0a'], line := 1, next_col := 3, stdin := [] }, next_char := { ch := '\x0a', line := 1, col := 2 } }
    (by rfl)

theorem okInv_refl (st : TokStream) : okInv st st :=
  ⟨rfl, [], by simp, by simp⟩

theorem pInv_mono {st st1 : TokStream} (hok : okInv st st1) :
    ∀ r : PRes, pInv st1 r → pInv st r := by
  intro r h
  obtain ⟨he1, c1, hc1, hp1⟩ := hok
  match r with
  | none => trivial
  | some (.ok st2) =>
    obtain ⟨he2, c2, hc2, hp2⟩ := h
    refine ⟨he2.trans he1, c1 ++ c2, by rw [hc1, hc2, List.append_assoc], ?_⟩
    intro t ht
    rcases List.mem_append.mp ht with ht | ht
    exacts [hp1 t ht, hp2 t ht]
  | some (.error e) =>
    rcases h with ⟨pre, rest, hpre, hp⟩ | ⟨hend, hall⟩
    · refine Or.inl ⟨c1 ++ pre, rest, by rw [hc1, hpre, List.append_assoc], ?_⟩
      intro t ht
      rcases List.mem_append.mp ht with ht | ht
      exacts [hp1 t ht, hp t ht]
    · refine Or.inr ⟨hend.trans he1, ?_⟩
      intro t ht
      rw [hc1] at ht
      rcases List.mem_append.mp ht with ht | ht
      exacts [hp1 t ht, hall t ht]

theorem pInv_bind {st : TokStream} {r : PRes} {f : TokStream → PRes}
    (h1 : pInv st r) (h2 : ∀ st1, pInv st1 (f st1)) : pInv st (pbind r f) := by
  match r with
  | none => trivial
  | some (.error e) => exact h1
  | some (.ok st1) => exact pInv_mono h1 (f st1) (h2 st1)

theorem errInv_la (st : TokStream) : errInv st (la st) := by
  rcases hst : st.toks with _ | ⟨t, rest⟩
  · refine Or.inr ⟨by simp [la, hst], ?_⟩
    intro t ht; rw [hst] at ht; simp at ht
  · exact Or.inl ⟨[], rest, by simp [hst, la], by simp⟩

theorem eat_pInv {exp : TokTp} (hexp : exp ≠ TokTp.Trunc ∧ exp ≠ TokTp.Float)
    (st : TokStream) : pInv st (plift (Parser.eat exp st)) := by
  unfold Parser.eat
  by_cases h : (la st).tp = exp
  · rw [if_pos h]
    show okInv st (adv st)
    rcases hst : st.toks with _ | ⟨t, rest⟩
    · exact ⟨rfl, [], by simp [adv, hst], by simp⟩
    · refine ⟨rfl, [t], by simp [adv, hst], ?_⟩
      intro t' ht'
      simp at ht'
      subst ht'
      have htp : t'.tp = exp := by rw [← h]; simp [la, hst]
      exact ⟨htp ▸ hexp.1, htp ▸ hexp.2⟩
  · rw [if_neg h]
    exact errInv_la st

theorem types_pInv (st : TokStream) : pInv st (Parser.types st) := by
  cases h : (la st).tp <;> simp only [Parser.types, h] <;>
    first
      | exact eat_pInv ⟨by simp, by simp⟩ st
      | exact okInv_refl st
      | exact errInv_la st

theorem comp_op_pInv (st : TokStream) : pInv st (Parser.comp_op st) := by
  cases h : (la st).tp <;> simp only [Parser.comp_op, h] <;>
    first
      | exact eat_pInv ⟨by simp, by simp⟩ st
      | exact errInv_la st

theorem add_op_pInv (st : TokStream) : pInv st (Parser.add_op st) := by
  cases h : (la st).tp <;> simp only [Parser.add_op, h] <;>
    first
      | exact eat_pInv ⟨by simp, by simp⟩ st
      | exact errInv_la st

theorem mul_op_pInv (st : TokStream) : pInv st (Parser.mul_op st) := by
  cases h : (la st).tp <;> simp only [Parser.mul_op, h] <;>
    first
      | exact eat_pInv ⟨by simp, by simp⟩ st
      | exact errInv_la st

/-- Master invariant of all recursive parser operations: a success
consumes a prefix of plain tokens; a failure reports the first
unconsumed token (or the perpetual end token). -/
theorem parser_pInv : ∀ fuel : Nat,
    (∀ st, pInv st (Parser.program fuel st)) ∧
    (∀ st, pInv st (Parser.stmt_list fuel st)) ∧
    (∀ st, pInv st (Parser.stmt fuel st)) ∧
    (∀ st, pInv st (Parser.comp fuel st)) ∧
    (∀ st, pInv st (Parser.expr fuel st)) ∧
    (∀ st, pInv st (Parser.term fuel st)) ∧
    (∀ st, pInv st (Parser.term_tail fuel st)) ∧
    (∀ st, pInv st (Parser.factor fuel st)) ∧
    (∀ st, pInv st (Parser.factor_tail fuel st)) := by
  intro fuel
  induction fuel with
  | zero =>
    refine ⟨?_, ?_, ?_, ?_, ?_, ?_, ?_, ?_, ?_⟩ <;> intro st <;>
      simp only [Parser.program, Parser.stmt_list, Parser.stmt, Parser.comp, Parser.expr,
        Parser.term, Parser.term_tail, Parser.factor, Parser.factor_tail, pInv]
  | succ n ih =>
    obtain ⟨ihprog, ihsl, ihstmt, ihcomp, ihexpr, ihterm, ihtt, ihfac, ihft⟩ := ih
    refine ⟨?_, ?_, ?_, ?_, ?_, ?_, ?_, ?_, ?_⟩ <;> intro st
    · cases h : (la st).tp <;> simp only [Parser.program, h] <;>
        first
          | exact pInv_bind (ihsl st) (fun st1 => eat_pInv ⟨by simp, by simp⟩ st1)
          | exact errInv_la st
    · cases h : (la st).tp <;> simp only [Parser.stmt_list, h] <;>
        first
          | exact pInv_bind (ihstmt st) (fun st1 => ihsl st1)
          | exact okInv_refl st
          | exact errInv_la st
    · cases h : (la st).tp <;> simp only [Parser.stmt, h]
      case Ident =>
        exact pInv_bind (eat_pInv ⟨by simp, by simp⟩ st) (fun st1 =>
          pInv_bind (eat_pInv ⟨by simp, by simp⟩ st1) (fun st2 => ihexpr st2))
      case Read =>
        exact pInv_bind (eat_pInv ⟨by simp, by simp⟩ st) (fun st1 =>
          pInv_bind (types_pInv st1) (fun st2 => eat_pInv ⟨by simp, by simp⟩ st2))
      case Write =>
        exact pInv_bind (eat_pInv ⟨by simp, by simp⟩ st) (fun st1 => ihexpr st1)
      case If =>
        exact pInv_bind (eat_pInv ⟨by simp, by simp⟩ st) (fun st1 =>
          pInv_bind (ihcomp st1) (fun st2 =>
            pInv_bind (ihsl st2) (fun st3 => eat_pInv ⟨by simp, by simp⟩ st3)))
      case Do =>
        exact pInv_bind (eat_pInv ⟨by simp, by simp⟩ st) (fun st1 =>
          pInv_bind (ihsl st1) (fun st2 => eat_pInv ⟨by simp, by simp⟩ st2))
      case Check =>
        exact pInv_bind (eat_pInv ⟨by simp, by simp⟩ st) (fun st1 => ihcomp st1)
      case Int =>
        exact pInv_bind (eat_pInv ⟨by simp, by simp⟩ st) (fun st1 =>
          pInv_bind (eat_pInv ⟨by simp, by simp⟩ st1) (fun st2 =>
            pInv_bind (eat_pInv ⟨by simp, by simp⟩ st2) (fun st3 => ihexpr st3)))
      case Real =>
        exact pInv_bind (eat_pInv ⟨by simp, by simp⟩ st) (fun st1 =>
          pInv_bind (eat_pInv ⟨by simp, by simp⟩ st1) (fun st2 =>
            pInv_bind (eat_pInv ⟨by simp, by simp⟩ st2) (fun st3 => ihexpr st3)))
      all_goals exact errInv_la st
    · cases h : (la st).tp <;> simp only [Parser.comp, h] <;>
        first
          | exact pInv_bind (ihexpr st) (fun st1 =>
              pInv_bind (comp_op_pInv st1) (fun st2 => ihexpr st2))
          | exact errInv_la st
    · cases h : (la st).tp <;> simp only [Parser.expr, h] <;>
        first
          | exact pInv_bind (ihterm st) (fun st1 => ihtt st1)
          | exact errInv_la st
    · cases h : (la st).tp <;> simp only [Parser.term, h] <;>
        first
          | exact pInv_bind (ihfac st) (fun st1 => ihft st1)
          | exact errInv_la st
    · cases h : (la st).tp <;> simp only [Parser.term_tail, h] <;>
        first
          | exact pInv_bind (add_op_pInv st) (fun st1 =>
              pInv_bind (ihterm st1) (fun st2 => ihtt st2))
          | exact okInv_refl st
          | exact errInv_la st
    · cases h : (la st).tp <;> simp only [Parser.factor, h] <;>
        first
          | exact eat_pInv ⟨by simp, by simp⟩ st
          | exact pInv_bind (eat_pInv ⟨by simp, by simp⟩ st) (fun st1 =>
              pInv_bind (ihexpr st1) (fun st2 => eat_pInv ⟨by simp, by simp⟩ st2))
          | exact errInv_la st
    · cases h : (la st).tp <;> simp only [Parser.factor_tail, h] <;>
        first
          | exact pInv_bind (mul_op_pInv st) (fun st1 =>
              pInv_bind (ihfac st1) (fun st2 => ihft st2))
          | exact okInv_refl st
          | exact errInv_la st

/-- Inversion of successful sequencing. -/
theorem pbind_ok {r : PRes} {f : TokStream → PRes} {st' : TokStream}
    (h : pbind r f = some (.ok st')) :
    ∃ st1, r = some (.ok st1) ∧ f st1 = some (.ok st') := by
  match r with
  | none => exact Option.noConfusion h
  | some (.error e) => exact Except.noConfusion (Option.some.inj h)
  | some (.ok st1) => exact ⟨st1, rfl, h⟩

/-- The token list produced by `tokenize` contains no `End` token: the
first `End` terminates it and becomes the stream's perpetual end. -/
theorem tokenize_no_end : ∀ (fuel : Nat) (sc : Scanner) (toks : List Token) (te : Token),
    tokenize fuel sc = some (.ok (toks, te)) → ∀ t ∈ toks, t.tp ≠ .End := by
  intro fuel
  induction fuel with
  | zero => intro sc toks te h; simp [tokenize] at h
  | succ n ih =>
    intro sc toks te h
    simp only [tokenize] at h
    split at h
    · exact absurd h (by simp)
    · exact absurd h (by simp)
    · rename_i t sc' hs
      split at h
      · rename_i hend
        simp only [Option.some.injEq, Except.ok.injEq, Prod.mk.injEq] at h
        obtain ⟨rfl, rfl⟩ := h
        intro t' ht'
        simp at ht'
      · rename_i hend
        split at h
        · exact absurd h (by simp)
        · exact absurd h (by simp)
        · rename_i ts te2 ht
          simp only [Option.some.injEq, Except.ok.injEq, Prod.mk.injEq] at h
          obtain ⟨rfl, rfl⟩ := h
          intro t' ht'
          rcases List.mem_cons.mp ht' with rfl | ht'
          · exact hend
          · exact ih sc' ts te2 ht t' ht'

/-- C5: whenever the parser fails — a terminal mismatch in `eat` or a
lookahead outside every FIRST/FOLLOW alternative of a nonterminal — the
`syntax error on line n` panic reports exactly the current lookahead
token (whose `line` field is printed): that token is the first
unconsumed token of the stream, every token before it having been
consumed, or the perpetual end token once the stream is exhausted. -/
theorem C5_syntax_error_reports_lookahead_line :
    (∀ (exp : TokTp) (st : TokStream) (e : Token),
      Parser.eat exp st = .error e → e = la st) ∧
    (∀ (fuel : Nat) (st : TokStream) (e : Token),
      Parser.program fuel st = some (.error e) → errInv st e) := by
  constructor
  · intro exp st e h
    unfold Parser.eat at h
    by_cases hc : (la st).tp = exp
    · rw [if_pos hc] at h; simp at h
    · rw [if_neg hc] at h
      exact (Except.error.inj h).symm
  · intro fuel st e h
    have hh := (parser_pInv fuel).1 st
    rw [h] at hh
    exact hh

/-- Witness for C5: parsing `if x fi` (spec Example 4) fails at the
lookahead token `fi` of line 1, which is the first unconsumed token. -/
theorem C5_witness :
    errInv ⟨[⟨TokTp.If, ['i', 'f'], 1, 0⟩, ⟨TokTp.Ident, ['x'], 1, 3⟩,
      ⟨TokTp.Fi, ['f', 'i'], 1, 5⟩], ⟨TokTp.End, [], 2, 0⟩⟩
      ⟨TokTp.Fi, ['f', 'i'], 1, 5⟩ :=
  C5_syntax_error_reports_lookahead_line.2 99
    ⟨[⟨TokTp.If, ['i', 'f'], 1, 0⟩, ⟨TokTp.Ident, ['x'], 1, 3⟩,
      ⟨TokTp.Fi, ['f', 'i'], 1, 5⟩], ⟨TokTp.End, [], 2, 0⟩⟩
    ⟨TokTp.Fi, ['f', 'i'], 1, 5⟩ (by rfl)

/-- C9: the scanner produces `Trunc` / `Float` tokens for the keywords
`trunc` / `float`, but no parser operation accepts either category, so
whenever the scanned token list contains one, `parse` cannot succeed:
any result it returns is a SyntaxError. -/
theorem C9_trunc_float_tokens_always_syntax_error :
    ∀ (fuel1 : Nat) (lines : List (List Char)) (toks : List Token) (te : Token),
      tokenize fuel1 (initScanner lines) = some (.ok (toks, te)) →
      (∃ t ∈ toks, t.tp = .Trunc ∨ t.tp = .Float) →
      ∀ (fuel2 : Nat) (r : Except Token TokStream),
        Parser.program fuel2 ⟨toks, te⟩ = some r →
        ∃ e, r = .error e := by
  intro fuel1 lines toks te htok hmem fuel2 r hr
  obtain ⟨t0, ht0mem, ht0⟩ := hmem
  cases r with
  | error e => exact ⟨e, rfl⟩
  | ok st' =>
    exfalso
    have hnoend := tokenize_no_end fuel1 _ toks te htok
    cases fuel2 with
    | zero => simp [Parser.program] at hr
    | succ n =>
      cases hla : (la ⟨toks, te⟩).tp <;> simp only [Parser.program, hla] at hr
      all_goals try simp at hr
      all_goals {
        obtain ⟨st1, h1, h2⟩ := pbind_ok hr
        have hok : okInv ⟨toks, te⟩ st1 := by
          have hh := (parser_pInv n).2.1 ⟨toks, te⟩
          rw [h1] at hh
          exact hh
        obtain ⟨hend, c1, hc1, hp1⟩ := hok
        have h2' : Parser.eat .End st1 = .ok st' := Option.some.inj h2
        unfold Parser.eat at h2'
        by_cases hc : (la st1).tp = .End
        · rcases hst1 : st1.toks with _ | ⟨t1, r1⟩
          · rw [hst1, List.append_nil] at hc1
            have hp0 := hp1 t0 (hc1 ▸ ht0mem)
            rcases ht0 with h | h
            · exact hp0.1 h
            · exact hp0.2 h
          · have ht1 : t1.tp = .End := by rw [← hc]; simp [la, hst1]
            have ht1m : t1 ∈ toks := by
              have hmem1 : t1 ∈ c1 ++ st1.toks :=
                List.mem_append_right c1 (by rw [hst1]; simp)
              rw [← hc1] at hmem1
              exact hmem1
            exact hnoend t1 ht1m ht1
        · rw [if_neg hc] at h2'
          simp at h2'
      }

/-- Witness for C9: the input `trunc` scans to one `Trunc` token and the
parser returns a SyntaxError on it. -/
theorem C9_witness :
    ∃ e, (Except.error ⟨TokTp.Trunc, "trunc".toList, 1, 0⟩ :
      Except Token TokStream) = .error e :=
  C9_trunc_float_tokens_always_syntax_error 99 ["trunc".toList]
    [⟨TokTp.Trunc, "trunc".toList, 1, 0⟩] ⟨TokTp.End, [], 2, 0⟩
    (by rfl)
    ⟨⟨TokTp.Trunc, "trunc".toList, 1, 0⟩, by simp, Or.inl rfl⟩
    99 (.error ⟨TokTp.Trunc, "trunc".toList, 1, 0⟩)
    (by rfl)

end CalcParse
